import Mathlib

/-!
Shallow embedding of the pdf-encrypt-lite library (src/unnamed/part_000):
the MD5 digest, the RC4 stream cipher, the PDF password padding, and the
PDF Standard Security Handler key derivations (Algorithms 2 and 3 of the
PDF specification), together with theorems checking the natural-language
specification against this embedding.

Byte buffers are modelled as `List Nat`.  JavaScript 32-bit arithmetic is
modelled by explicit reduction modulo 2 ^ 32, and a byte stored into a
`Uint8Array` slot by reduction modulo 256.  Definitions named as in the
source are translated from the source; definitions whose name starts with
`spec` restate the specification's own wording, for comparison.
-/

namespace PdfEncryptLite

/-- Per-round left-rotation amounts `S` of the digest (part_000, lines 26-31). -/
def md5S : List Nat :=
  [7, 12, 17, 22, 7, 12, 17, 22, 7, 12, 17, 22, 7, 12, 17, 22,
   5, 9, 14, 20, 5, 9, 14, 20, 5, 9, 14, 20, 5, 9, 14, 20,
   4, 11, 16, 23, 4, 11, 16, 23, 4, 11, 16, 23, 4, 11, 16, 23,
   6, 10, 15, 21, 6, 10, 15, 21, 6, 10, 15, 21, 6, 10, 15, 21]

/-- Per-round additive constants `K` of the digest (part_000, lines 33-50). -/
def md5K : List Nat :=
  [0xd76aa478, 0xe8c7b756, 0x242070db, 0xc1bdceee,
   0xf57c0faf, 0x4787c62a, 0xa8304613, 0xfd469501,
   0x698098d8, 0x8b44f7af, 0xffff5bb1, 0x895cd7be,
   0x6b901122, 0xfd987193, 0xa679438e, 0x49b40821,
   0xf61e2562, 0xc040b340, 0x265e5a51, 0xe9b6c7aa,
   0xd62f105d, 0x02441453, 0xd8a1e681, 0xe7d3fbc8,
   0x21e1cde6, 0xc33707d6, 0xf4d50d87, 0x455a14ed,
   0xa9e3e905, 0xfcefa3f8, 0x676f02d9, 0x8d2a4c8a,
   0xfffa3942, 0x8771f681, 0x6d9d6122, 0xfde5380c,
   0xa4beea44, 0x4bdecfa9, 0xf6bb4b60, 0xbebfbc70,
   0x289b7ec6, 0xeaa127fa, 0xd4ef3085, 0x04881d05,
   0xd9d4d039, 0xe6db99e5, 0x1fa27cf8, 0xc4ac5665,
   0xf4292244, 0x432aff97, 0xab9423a7, 0xfc93a039,
   0x655b59c3, 0x8f0ccc92, 0xffeff47d, 0x85845dd1,
   0x6fa87e4f, 0xfe2ce6e0, 0xa3014314, 0x4e0811a1,
   0xf7537e82, 0xbd3af235, 0x2ad7d2bb, 0xeb86d391]

/-- Little-endian serialization of a 32-bit word into four bytes, as
`DataView.setUint32(_, n, true)` lays it out. -/
def le4 (n : Nat) : List Nat :=
  [n % 256, n / 256 % 256, n / 65536 % 256, n / 16777216 % 256]

/-- MD5 pre-processing, successful path (part_000, lines 58-69).  The
source allocates a zero-filled buffer of length `(msgLen + 9 + 63) & ~63`
(a 32-bit int computation — see `md5PaddedLenBits` for the exact bit
pattern and `md5ThrowsAt` for the inputs on which the allocation or the
copy throws a RangeError instead), copies the message, writes `0x80` right
after it, writes the bit length `msgLen * 8` modulo 2 ^ 32 little-endian
into the fourth-from-last word, and writes `0` into the last word — the
high 32 bits of the length field are always zero.  On the non-throwing
inputs (`msgLen < 2147483576`) the int32 computation equals the exact
round-up `(msgLen + 9 + 63) / 64 * 64` used here, and the disjoint buffer
writes over the zero-filled array are rendered as one concatenation. -/
def md5pad (bytes : List Nat) : List Nat :=
  let msgLen := bytes.length
  let msgLenPadded := (msgLen + 9 + 63) / 64 * 64
  bytes ++ 0x80 :: (List.replicate (msgLenPadded - 8 - (msgLen + 1)) 0 ++
    (le4 (msgLen * 8 % 4294967296) ++ [0, 0, 0, 0]))

/-- The unsigned 32-bit bit pattern of the JavaScript int32 expression
`(msgLen + 9 + 63) & ~63` of part_000, line 61: the bitwise operator
ToInt32-coerces the sum (reduction of the bit pattern modulo 2 ^ 32) and
`& ~63` clears the six low bits of the pattern; bit 31 of the result is
the sign bit of the int32 value. -/
def md5PaddedLenBits (msgLen : Nat) : Nat :=
  (msgLen + 9 + 63) % 4294967296 / 64 * 64

/-- Whether the source digest throws a RangeError for an input of this
byte length (part_000, lines 61-63): when the int32 padded length is
negative (bit 31 of the pattern set), `new Uint8Array(msgLenPadded)`
throws; when the sum wrapped past 2 ^ 32 down to a small non-negative
value, the fresh buffer is shorter than the message and `msg.set(bytes)`
throws. -/
def md5ThrowsAt (msgLen : Nat) : Bool :=
  decide (2147483648 ≤ md5PaddedLenBits msgLen) ||
    decide (md5PaddedLenBits msgLen < msgLen)

/-- The little-endian 32-bit words of a byte list, as
`new Uint32Array(msg.buffer, offset, 16)` reads them on a little-endian
host (part_000, line 73). -/
def leWords : List Nat → List Nat
  | b0 :: b1 :: b2 :: b3 :: rest =>
      (b0 + 256 * b1 + 65536 * b2 + 16777216 * b3) :: leWords rest
  | _ => []

/-- One of the 64 rounds of the digest (part_000, lines 77-99), acting on
the working state `(a, b, c, d)`.  JavaScript `~x` on a value below 2 ^ 32
has the same low 32 bits as `x ^^^ 0xFFFFFFFF`, and `>>> 0` is the
reduction modulo 2 ^ 32. -/
def md5round (chunk : List Nat) (st : Nat × Nat × Nat × Nat) (i : Nat) :
    Nat × Nat × Nat × Nat :=
  let a := st.1
  let b := st.2.1
  let c := st.2.2.1
  let d := st.2.2.2
  let fg : Nat × Nat :=
    if i < 16 then ((b &&& c) ||| ((b ^^^ 4294967295) &&& d), i)
    else if i < 32 then ((d &&& b) ||| ((d ^^^ 4294967295) &&& c), (5 * i + 1) % 16)
    else if i < 48 then (b ^^^ c ^^^ d, (3 * i + 5) % 16)
    else (c ^^^ (b ||| (d ^^^ 4294967295)), 7 * i % 16)
  let f := (fg.1 + a + md5K.getD i 0 + chunk.getD fg.2 0) % 4294967296
  let s := md5S.getD i 0
  (d, (b + (((f <<< s) ||| (f >>> (32 - s))) % 4294967296)) % 4294967296, b, c)

/-- One 64-byte chunk of the digest (part_000, lines 72-105): 64 rounds,
then the working values are added into the running accumulators modulo
2 ^ 32. -/
def md5chunk (st : Nat × Nat × Nat × Nat) (chunk : List Nat) :
    Nat × Nat × Nat × Nat :=
  let r := (List.range 64).foldl (md5round chunk) st
  ((st.1 + r.1) % 4294967296, (st.2.1 + r.2.1) % 4294967296,
   (st.2.2.1 + r.2.2.1) % 4294967296, (st.2.2.2 + r.2.2.2) % 4294967296)

/-- The chunk loop of the digest over the word list of the padded message
(part_000, lines 72-105), starting from the four fixed accumulator
constants of lines 53-56. -/
def md5words (words : List Nat) : Nat × Nat × Nat × Nat :=
  (List.range (words.length / 16)).foldl
    (fun st c => md5chunk st ((words.drop (16 * c)).take 16))
    (0x67452301, 0xefcdab89, 0x98badcfe, 0x10325476)

/-- The MD5 digest of a byte list on the successful path, `md5` of
part_000, lines 22-116: pad, process all 64-byte chunks, serialize the
four accumulators little-endian.  `md5Run` is the fallible version that
also models the RangeError path. -/
def md5 (bytes : List Nat) : List Nat :=
  let q := md5words (leWords (md5pad bytes))
  le4 q.1 ++ le4 q.2.1 ++ le4 q.2.2.1 ++ le4 q.2.2.2

/-- The digest as the source actually runs it: on inputs whose int32
padded-length computation wraps (part_000, lines 61-63) the source throws
a RangeError, modelled as `none`; otherwise it returns the 16-byte digest. -/
def md5Run (bytes : List Nat) : Option (List Nat) :=
  if md5ThrowsAt bytes.length then none else some (md5 bytes)

/-- The 32-byte PDF standard padding constant (part_000, lines 202-207). -/
def PADDING : List Nat :=
  [0x28, 0xBF, 0x4E, 0x5E, 0x4E, 0x75, 0x8A, 0x41,
   0x64, 0x00, 0x4E, 0x56, 0xFF, 0xFA, 0x01, 0x08,
   0x2E, 0x2E, 0x00, 0xB6, 0xD0, 0x68, 0x3E, 0x80,
   0x2F, 0x0C, 0xA9, 0xFE, 0x64, 0x53, 0x69, 0x7A]

/-- Pad or truncate a password to 32 bytes, `padPassword` of part_000,
lines 213-225.  The password is taken already encoded to bytes; the two
`Uint8Array.set` writes into the fresh 32-byte buffer are rendered as
truncation, respectively concatenation with a prefix of `PADDING`. -/
def padPassword (password : List Nat) : List Nat :=
  if 32 ≤ password.length then password.take 32
  else password ++ PADDING.take (32 - password.length)

theorem md5_length (m : List Nat) : (md5 m).length = 16 := by
  simp [md5, le4]

theorem md5ThrowsAt_true_iff (msgLen : Nat) :
    md5ThrowsAt msgLen = true ↔ 2147483576 ≤ msgLen := by
  simp only [md5ThrowsAt, md5PaddedLenBits, Bool.or_eq_true, decide_eq_true_eq]
  omega

theorem md5ThrowsAt_false_of_lt (msgLen : Nat) (h : msgLen < 2147483576) :
    md5ThrowsAt msgLen = false := by
  cases hb : md5ThrowsAt msgLen with
  | false => rfl
  | true => exact absurd ((md5ThrowsAt_true_iff msgLen).mp hb) (by omega)

theorem le4_mem_lt (n : Nat) : ∀ b ∈ le4 n, b < 256 := by
  intro b hb
  simp only [le4, List.mem_cons, List.not_mem_nil, or_false] at hb
  rcases hb with h | h | h | h <;> subst h <;> exact Nat.mod_lt _ (by omega)

theorem md5_mem_lt (m : List Nat) : ∀ b ∈ md5 m, b < 256 := by
  intro b hb
  simp only [md5, List.mem_append] at hb
  rcases hb with ((h | h) | h) | h <;> exact le4_mem_lt _ _ h

theorem padPassword_length (p : List Nat) : (padPassword p).length = 32 := by
  have hP : PADDING.length = 32 := by decide
  unfold padPassword
  split <;> simp [List.length_take, hP] <;> omega

/-- The RC4 cipher state (part_000, lines 124-127): the 256-entry table `s`
and the two cursors `i` and `j`. -/
structure RC4State where
  s : List Nat
  i : Nat
  j : Nat

/-- One step of the RC4 key schedule (part_000, lines 134-139).  For a
non-empty key this is `j = (j + s[i] + key[i % key.length]) & 0xFF`
followed by the swap of `s[i]` and `s[j]` (the destructuring assignment
reads both old entries before writing).  For an empty key, `key[i % 0]`
reads index `NaN` of a `Uint8Array`, which is `undefined`; the sum is then
`NaN` and `NaN & 0xFF` evaluates to `0`, so `j` is forced to `0`. -/
def rc4ksaStep (key : List Nat) (st : List Nat × Nat) (i : Nat) : List Nat × Nat :=
  let s := st.1
  let j := if key.length = 0 then 0
    else (st.2 + s.getD i 0 + key.getD (i % key.length) 0) % 256
  ((s.set i (s.getD j 0)).set j (s.getD i 0), j)

/-- The key-schedule loop of the RC4 constructor (part_000, lines 130-139):
the table starts as the identity permutation and `j` as `0`, then 256
mixing steps run. -/
def rc4ksa (key : List Nat) : List Nat × Nat :=
  (List.range 256).foldl (rc4ksaStep key) (List.range 256, 0)

/-- The RC4 constructor (part_000, lines 124-140): the mixed table from the
key schedule, with both cursors reset to `0`. -/
def rc4init (key : List Nat) : RC4State :=
  ⟨(rc4ksa key).1, 0, 0⟩

/-- One keystream step of `RC4.process` (part_000, lines 150-158): advance
the two cursors modulo 256, swap `s[i]` and `s[j]`, and read the keystream
byte at `(s[i] + s[j]) & 0xFF` from the swapped table. -/
def rc4step (st : RC4State) : RC4State × Nat :=
  let i := (st.i + 1) % 256
  let j := (st.j + st.s.getD i 0) % 256
  let s := (st.s.set i (st.s.getD j 0)).set j (st.s.getD i 0)
  (⟨s, i, j⟩, s.getD ((s.getD i 0 + s.getD j 0) % 256) 0)

/-- `RC4.process` (part_000, lines 147-162) on a byte list, also returning
the final cipher state.  Each output byte `data[k] ^ s[t]` is stored into a
`Uint8Array` slot, hence the reduction modulo 256. -/
def rc4run : RC4State → List Nat → List Nat × RC4State
  | st, [] => ([], st)
  | st, d :: rest =>
    let p := rc4step st
    let r := rc4run p.1 rest
    (((d ^^^ p.2) % 256) :: r.1, r.2)

/-- The output buffer of `RC4.process` (part_000, lines 147-162). -/
def rc4process (st : RC4State) (data : List Nat) : List Nat :=
  (rc4run st data).1

theorem rc4run_length (data : List Nat) :
    ∀ st : RC4State, (rc4run st data).1.length = data.length := by
  induction data with
  | nil => intro st; rfl
  | cons d rest ih => intro st; simp [rc4run, ih]

theorem rc4process_length (st : RC4State) (data : List Nat) :
    (rc4process st data).length = data.length :=
  rc4run_length data st

theorem getD_lt (l : List Nat) (hl : ∀ x ∈ l, x < 256) (i : Nat) :
    l.getD i 0 < 256 := by
  rcases Nat.lt_or_ge i l.length with h | h
  · rw [List.getD_eq_getElem l 0 h]
    exact hl _ (List.getElem_mem h)
  · rw [List.getD_eq_default l 0 h]
    omega

theorem set_mem_lt (l : List Nat) (hl : ∀ x ∈ l, x < 256) (i v : Nat)
    (hv : v < 256) : ∀ x ∈ l.set i v, x < 256 := by
  intro x hx
  rcases List.mem_or_eq_of_mem_set hx with h | h
  · exact hl x h
  · omega

theorem rc4step_s_lt (st : RC4State) (h : ∀ x ∈ st.s, x < 256) :
    ∀ x ∈ (rc4step st).1.s, x < 256 :=
  set_mem_lt _ (set_mem_lt _ h _ _ (getD_lt _ h _)) _ _ (getD_lt _ h _)

theorem rc4step_ks_lt (st : RC4State) (h : ∀ x ∈ st.s, x < 256) :
    (rc4step st).2 < 256 :=
  getD_lt _ (set_mem_lt _ (set_mem_lt _ h _ _ (getD_lt _ h _)) _ _ (getD_lt _ h _)) _

theorem rc4init_s_eq (key : List Nat) : (rc4init key).s = (rc4ksa key).1 := by
  simp only [rc4init]

theorem rc4ksa_eq (key : List Nat) :
    rc4ksa key = (List.range 256).foldl (rc4ksaStep key) (List.range 256, 0) := by
  simp only [rc4ksa]

set_option maxRecDepth 8192 in
theorem rc4init_s_lt (key : List Nat) : ∀ x ∈ (rc4init key).s, x < 256 := by
  have main : ∀ (l : List Nat) (p : List Nat × Nat), (∀ x ∈ p.1, x < 256) →
      ∀ x ∈ (l.foldl (rc4ksaStep key) p).1, x < 256 := by
    intro l
    induction l with
    | nil => intro p hp; exact hp
    | cons a as ih =>
      intro p hp
      refine ih _ ?_
      exact set_mem_lt _ (set_mem_lt _ hp _ _ (getD_lt _ hp _)) _ _ (getD_lt _ hp _)
  rw [rc4init_s_eq, rc4ksa_eq]
  exact main _ _ (fun x hx => List.mem_range.mp hx)

theorem rc4run_mem_lt (data : List Nat) :
    ∀ (st : RC4State) (b : Nat), b ∈ (rc4run st data).1 → b < 256 := by
  induction data with
  | nil => intro st b hb; simp [rc4run] at hb
  | cons d rest ih =>
    intro st b hb
    simp only [rc4run, List.mem_cons] at hb
    rcases hb with h | h
    · subst h; exact Nat.mod_lt _ (by omega)
    · exact ih _ _ h

theorem rc4run_roundtrip (data : List Nat) :
    ∀ st : RC4State, (∀ x ∈ st.s, x < 256) → (∀ b ∈ data, b < 256) →
      (rc4run st (rc4run st data).1).1 = data := by
  induction data with
  | nil => intro st _ _; rfl
  | cons d rest ih =>
    intro st hs hd
    have hdlt : d < 256 := hd d (by simp)
    have hks : (rc4step st).2 < 256 := rc4step_ks_lt st hs
    have hxor : d ^^^ (rc4step st).2 < 256 :=
      Nat.xor_lt_two_pow (n := 8) hdlt hks
    have hbyte : (d ^^^ (rc4step st).2) % 256 = d ^^^ (rc4step st).2 :=
      Nat.mod_eq_of_lt hxor
    simp only [rc4run, hbyte]
    rw [Nat.xor_cancel_right, Nat.mod_eq_of_lt hdlt,
      ih (rc4step st).1 (rc4step_s_lt st hs) (fun b hb => hd b (by simp [hb]))]

theorem rc4run_append (d1 : List Nat) :
    ∀ (st : RC4State) (d2 : List Nat),
      rc4run st (d1 ++ d2) =
        ((rc4run st d1).1 ++ (rc4run (rc4run st d1).2 d2).1,
         (rc4run (rc4run st d1).2 d2).2) := by
  induction d1 with
  | nil => intro st d2; rfl
  | cons d rest ih => intro st d2; simp [rc4run, ih]

theorem foldl_length_preserve {β : Type} (g : List Nat → β → List Nat)
    (hg : ∀ acc b, (g acc b).length = acc.length) (l : List β) :
    ∀ e, (l.foldl g e).length = e.length := by
  induction l with
  | nil => intro e; rfl
  | cons x xs ih => intro e; rw [List.foldl_cons, ih, hg]

theorem foldl_ext {α β : Type} (f g : α → β → α) (l : List β)
    (h : ∀ a : α, ∀ b ∈ l, f a b = g a b) : ∀ a, l.foldl f a = l.foldl g a := by
  induction l with
  | nil => intro a; rfl
  | cons x xs ih =>
    intro a
    rw [List.foldl_cons, List.foldl_cons, h a x (by simp)]
    exact ih (fun a b hb => h a b (by simp [hb])) _

theorem foldl_const_iterate {α : Type} (f : α → α) (n : Nat) (a : α) :
    (List.range n).foldl (fun x _ => f x) a = f^[n] a := by
  induction n with
  | zero => rfl
  | succ m ih =>
    rw [List.range_succ, List.foldl_append, ih, Function.iterate_succ_apply']
    rfl

/-- Algorithm 2 of the PDF specification, `computeEncryptionKey` of
part_000, lines 232-269.  The hash input built by offset writes into a
fresh exact-size buffer is rendered as a concatenation.  The four
permissions bytes are the source's `permissions & 0xFF`,
`(permissions >> 8) & 0xFF`, `(permissions >> 16) & 0xFF`,
`(permissions >> 24) & 0xFF` writes: after the ToInt32 coercion performed
by the JavaScript bitwise operators (reduction modulo 2 ^ 32, with the sign
of the reinterpretation not affecting any of these four masked bytes), they
equal plain division and remainder on `permissions % 2 ^ 32`. -/
def computeEncryptionKey (userPassword ownerKey : List Nat) (permissions : Nat)
    (fileId : List Nat) : List Nat :=
  let paddedPwd := padPassword userPassword
  let p := permissions % 4294967296
  let hashInput := paddedPwd ++ ownerKey ++
    [p % 256, p / 256 % 256, p / 65536 % 256, p / 16777216 % 256] ++ fileId
  let hash0 := md5 hashInput
  let hash := (List.range 50).foldl (fun h _ => md5 (h.take 16)) hash0
  hash.take 16

/-- `computeOwnerKey` of part_000, lines 275-302.  JavaScript
`ownerPassword || userPassword` falls back to the user password when the
owner password is absent (`null`) or empty (the empty string is falsy).
`key[j] = hash[j] ^ i` stores into a `Uint8Array` slot, hence the modulo
256, and `key.slice(0, 16)` is the `take 16`. -/
def computeOwnerKey (ownerPassword : Option (List Nat)) (userPassword : List Nat) :
    List Nat :=
  let effective := match ownerPassword with
    | none => userPassword
    | some p => if p.length = 0 then userPassword else p
  let hash0 := md5 (padPassword effective)
  let hash := (List.range 50).foldl (fun h _ => md5 h) hash0
  let paddedUser := padPassword userPassword
  (List.range 20).foldl
    (fun result i =>
      rc4process (rc4init ((hash.map fun b => (b ^^^ i) % 256).take 16)) result)
    paddedUser

/-- `computeUserKey` of part_000, lines 308-337.  The final
`new Uint8Array(32)` receiving the step-4 result at offset 0 and zeros at
offset 16 is rendered as appending 16 zero bytes (the step-4 result always
has exactly 16 bytes, being an RC4 image of a digest). -/
def computeUserKey (encryptionKey fileId : List Nat) : List Nat :=
  let hash := md5 (PADDING ++ fileId)
  let result0 := rc4process (rc4init encryptionKey) hash
  let result := (List.range' 1 19).foldl
    (fun result i =>
      rc4process (rc4init (encryptionKey.map fun b => (b ^^^ i) % 256)) result)
    result0
  result ++ List.replicate 16 0

/-- `encryptObject` of part_000, lines 343-364.  The object number
contributes its three low little-endian bytes and the generation number its
two low little-endian bytes (the `& 0xFF` masked shift writes, equal to
division and remainder on the ToInt32-coerced value). -/
def encryptObject (data : List Nat) (objectNum generationNum : Nat)
    (encryptionKey : List Nat) : List Nat :=
  let n := objectNum % 4294967296
  let g := generationNum % 4294967296
  let keyInput := encryptionKey ++
    [n % 256, n / 256 % 256, n / 65536 % 256, g % 256, g / 256 % 256]
  let objectKey := md5 keyInput
  rc4process (rc4init (objectKey.take (min (encryptionKey.length + 5) 16))) data

/-- Modelled from the wording of spec section 4.4, `deriveFileKey`:
concatenate the padded user password, the Owner value, the permissions as
four little-endian bytes and the file id; digest; re-digest the first 16
bytes of the working value 50 additional times; return the final 16 bytes. -/
def specDeriveFileKey (userPassword ownerValue : List Nat) (permissions : Nat)
    (fileId : List Nat) : List Nat :=
  let p := permissions % 4294967296
  let h0 := md5 (padPassword userPassword ++ ownerValue ++
    [p % 256, p / 256 % 256, p / 65536 % 256, p / 16777216 % 256] ++ fileId)
  ((fun h => md5 (h.take 16))^[50] h0).take 16

/-- Modelled from the wording of spec section 4.4, `deriveOwnerValue`:
digest the padded effective password (the owner password when provided and
non-empty, else the user password), re-digest the full 16-byte result 50
more times to obtain the base key, then apply the stream cipher to the
padded user password 20 times, iteration `k` keyed by every byte of the
base key XOR-ed with `k`, chaining output to input. -/
def specDeriveOwnerValue (ownerPassword : Option (List Nat)) (userPassword : List Nat) :
    List Nat :=
  let effective := match ownerPassword with
    | none => userPassword
    | some p => if p.length = 0 then userPassword else p
  let base := md5^[50] (md5 (padPassword effective))
  (List.range 20).foldl
    (fun payload k => rc4process (rc4init (base.map fun b => b ^^^ k)) payload)
    (padPassword userPassword)

/-- Modelled from the wording of spec section 4.4, `deriveUserValue`:
digest the padding constant concatenated with the file id, encrypt the
digest with the stream cipher keyed by the file key, apply 19 more passes
(iterations 1 to 19) keyed by every byte of the file key XOR-ed with the
iteration index (the XOR key keeps the file key's byte length), and append
16 zero bytes. -/
def specDeriveUserValue (fileKey fileId : List Nat) : List Nat :=
  let e0 := rc4process (rc4init fileKey) (md5 (PADDING ++ fileId))
  (List.range' 1 19).foldl
    (fun acc k => rc4process (rc4init (fileKey.map fun b => b ^^^ k)) acc) e0
    ++ List.replicate 16 0

/-- Modelled from the wording of spec section 4.5, `objectKey`: digest the
file key concatenated with three little-endian bytes of the object number
and two of the generation number, and keep the first
`min(len(fileKey) + 5, 16)` bytes. -/
def specObjectKey (fileKey : List Nat) (objectNumber generationNumber : Nat) :
    List Nat :=
  let n := objectNumber % 4294967296
  let g := generationNumber % 4294967296
  (md5 (fileKey ++ [n % 256, n / 256 % 256, n / 65536 % 256, g % 256, g / 256 % 256])).take
    (min (fileKey.length + 5) 16)

theorem iterate_md5take_length (n : Nat) (h0 : List Nat) (hh : h0.length = 16) :
    (((fun h => md5 (h.take 16))^[n]) h0).length = 16 := by
  induction n with
  | zero => exact hh
  | succ m ih => rw [Function.iterate_succ_apply']; exact md5_length _

theorem iterate_md5_length (n : Nat) (h0 : List Nat) (hh : h0.length = 16) :
    ((md5^[n]) h0).length = 16 := by
  induction n with
  | zero => exact hh
  | succ m ih => rw [Function.iterate_succ_apply']; exact md5_length _

theorem iterate_md5_mem_lt (n : Nat) (h0 : List Nat) (hh : ∀ b ∈ h0, b < 256) :
    ∀ b ∈ (md5^[n]) h0, b < 256 := by
  induction n with
  | zero => exact hh
  | succ m ih => rw [Function.iterate_succ_apply']; exact md5_mem_lt _

theorem map_xor_mod (X : List Nat) (hlt : ∀ b ∈ X, b < 256) (i : Nat)
    (hi : i < 256) :
    (X.map fun b => (b ^^^ i) % 256) = X.map fun b => b ^^^ i :=
  List.map_congr_left fun b hb =>
    Nat.mod_eq_of_lt (Nat.xor_lt_two_pow (n := 8) (hlt b hb) hi)

theorem take16_map_xor (X : List Nat) (hlen : X.length = 16)
    (hlt : ∀ b ∈ X, b < 256) (i : Nat) (hi : i < 256) :
    (X.map fun b => (b ^^^ i) % 256).take 16 = X.map fun b => b ^^^ i := by
  rw [map_xor_mod X hlt i hi]
  exact List.take_of_length_le (by rw [List.length_map, hlen])

/-- Claim C1: for every user password, owner value, permissions integer and
file id, `computeEncryptionKey` returns exactly the specification's
`deriveFileKey`: digest pad(userPassword) ‖ ownerValue ‖ permissions as
four little-endian bytes ‖ fileId, re-digest the first 16 bytes of the
working value 50 additional times, and keep the final 16 bytes; the result
always has exactly 16 bytes. -/
theorem computeEncryptionKey_correct (userPassword ownerKey : List Nat)
    (permissions : Nat) (fileId : List Nat) :
    computeEncryptionKey userPassword ownerKey permissions fileId =
      specDeriveFileKey userPassword ownerKey permissions fileId ∧
    (computeEncryptionKey userPassword ownerKey permissions fileId).length = 16 := by
  have heq : computeEncryptionKey userPassword ownerKey permissions fileId =
      specDeriveFileKey userPassword ownerKey permissions fileId := by
    simp only [computeEncryptionKey, specDeriveFileKey, foldl_const_iterate]
  refine ⟨heq, ?_⟩
  rw [heq]
  simp only [specDeriveFileKey]
  rw [List.length_take, iterate_md5take_length 50 _ (md5_length _)]
  omega

/-- Claim C2: `computeOwnerKey` uses the owner password when provided and
non-empty (else the user password), digests its padding, re-digests the
full 16-byte result 50 more times to a base key, then encrypts
pad(userPassword) through 20 chained RC4 passes keyed by the base key
XOR-ed bytewise with the iteration index; the result has exactly 32
bytes. -/
theorem computeOwnerKey_correct (ownerPassword : Option (List Nat))
    (userPassword : List Nat) :
    computeOwnerKey ownerPassword userPassword =
      specDeriveOwnerValue ownerPassword userPassword ∧
    (computeOwnerKey ownerPassword userPassword).length = 32 := by
  have heq : computeOwnerKey ownerPassword userPassword =
      specDeriveOwnerValue ownerPassword userPassword := by
    simp only [computeOwnerKey, specDeriveOwnerValue, foldl_const_iterate]
    apply foldl_ext
    intro a i hi
    have hi256 : i < 256 := by
      have := List.mem_range.mp hi
      omega
    rw [take16_map_xor _ (iterate_md5_length 50 _ (md5_length _))
      (iterate_md5_mem_lt 50 _ (md5_mem_lt _)) i hi256]
  refine ⟨heq, ?_⟩
  rw [heq]
  simp only [specDeriveOwnerValue]
  rw [foldl_length_preserve _ (fun acc b => rc4process_length _ _) _ _,
    padPassword_length]

/-- Claim C3: `computeUserKey` digests PADDING ‖ fileId, encrypts the
digest with RC4 keyed by the file key, runs 19 further chained passes
keyed by the file key XOR-ed bytewise with the iteration index 1..19 (the
XOR key keeps the file key's byte length), and appends 16 zero bytes; the
result has exactly 32 bytes.  The hypothesis states that the file key is a
byte buffer (entries below 256). -/
theorem computeUserKey_correct (encryptionKey fileId : List Nat)
    (hk : ∀ b ∈ encryptionKey, b < 256) :
    computeUserKey encryptionKey fileId =
      specDeriveUserValue encryptionKey fileId ∧
    (computeUserKey encryptionKey fileId).length = 32 := by
  have heq : computeUserKey encryptionKey fileId =
      specDeriveUserValue encryptionKey fileId := by
    simp only [computeUserKey, specDeriveUserValue]
    refine congrArg (fun l => l ++ List.replicate 16 0) ?_
    apply foldl_ext
    intro a i hi
    have hi256 : i < 256 := by
      have := List.mem_range'_1.mp hi
      omega
    rw [map_xor_mod _ hk i hi256]
  refine ⟨heq, ?_⟩
  rw [heq]
  simp only [specDeriveUserValue]
  rw [List.length_append,
    foldl_length_preserve _ (fun acc b => rc4process_length _ _) _ _,
    rc4process_length, md5_length, List.length_replicate]

/-- Witness for claim C3 at a concrete five-byte file key and two-byte
file id. -/
theorem computeUserKey_correct_witness :
    computeUserKey [1, 2, 3, 4, 5] [9, 9] =
      specDeriveUserValue [1, 2, 3, 4, 5] [9, 9] ∧
    (computeUserKey [1, 2, 3, 4, 5] [9, 9]).length = 32 :=
  computeUserKey_correct [1, 2, 3, 4, 5] [9, 9] (by decide)

/-- Claim C7: the per-object cipher key of `encryptObject` is the first
`min(len(fileKey) + 5, 16)` bytes of the digest of
fileKey ‖ objectNumber as three little-endian bytes ‖ generationNumber as
two little-endian bytes, hence at most 16 bytes, and the encrypted payload
is the stream cipher keyed by that per-object key applied to the payload. -/
theorem encryptObject_correct (data : List Nat) (objectNum generationNum : Nat)
    (encryptionKey : List Nat) :
    encryptObject data objectNum generationNum encryptionKey =
      rc4process (rc4init (specObjectKey encryptionKey objectNum generationNum)) data ∧
    (specObjectKey encryptionKey objectNum generationNum).length ≤ 16 := by
  constructor
  · simp only [encryptObject, specObjectKey]
  · simp only [specObjectKey, List.length_take]
    omega

/-- The 56-byte ASCII input `"1234567890" * 5 ++ "123456"` used for the
padding-boundary digest vector. -/
def testInput56 : List Nat :=
  [49, 50, 51, 52, 53, 54, 55, 56, 57, 48, 49, 50, 51, 52, 53, 54, 55, 56,
   57, 48, 49, 50, 51, 52, 53, 54, 55, 56, 57, 48, 49, 50, 51, 52, 53, 54,
   55, 56, 57, 48, 49, 50, 51, 52, 53, 54, 55, 56, 57, 48, 49, 50, 51, 52,
   53, 54]

/-- Claim C4 counterexample: the digest does not succeed on every input —
for a 2147483576-byte input the source's 32-bit `(msgLen + 9 + 63) & ~63`
wraps to a negative int32, `new Uint8Array` throws a RangeError, and the
run returns no digest at all. -/
theorem md5Run_throws_cex : md5Run (List.replicate 2147483576 0) = none := by
  unfold md5Run
  rw [List.length_replicate, (md5ThrowsAt_true_iff 2147483576).mpr (by omega)]
  rfl

set_option maxRecDepth 100000 in
/-- Claim C4 amended: for every input shorter than 2147483576 bytes the
digest does not throw and returns exactly 16 bytes (on longer inputs the
int32 padded-length computation wraps and the source throws a RangeError
instead); the run reproduces the MD5 reference digests of the empty input,
of the ASCII string "abc" (RFC 1321 test suite), and of a 56-byte input at
the padding boundary. -/
theorem md5_contract_amended :
    (∀ bytes : List Nat, bytes.length < 2147483576 →
      md5Run bytes = some (md5 bytes) ∧ (md5 bytes).length = 16) ∧
    md5Run [] = some [0xd4, 0x1d, 0x8c, 0xd9, 0x8f, 0x00, 0xb2, 0x04,
                      0xe9, 0x80, 0x09, 0x98, 0xec, 0xf8, 0x42, 0x7e] ∧
    md5Run [97, 98, 99] = some [0x90, 0x01, 0x50, 0x98, 0x3c, 0xd2, 0x4f, 0xb0,
                                0xd6, 0x96, 0x3f, 0x7d, 0x28, 0xe1, 0x7f, 0x72] ∧
    md5Run testInput56 = some [0x49, 0xf1, 0x93, 0xad, 0xce, 0x17, 0x84, 0x90,
                               0xe3, 0x4d, 0x1b, 0x3a, 0x4e, 0xc0, 0x06, 0x4c] := by
  refine ⟨?_, by decide, by decide, by decide⟩
  intro bytes h
  refine ⟨?_, md5_length bytes⟩
  unfold md5Run
  rw [md5ThrowsAt_false_of_lt bytes.length h]
  rfl

/-- Witness for claim C4's amended statement at the input "abc". -/
theorem md5_contract_amended_witness :
    md5Run [97, 98, 99] = some (md5 [97, 98, 99]) ∧
    (md5 [97, 98, 99] : List Nat).length = 16 :=
  md5_contract_amended.1 [97, 98, 99] (by decide)

/-- Modelled from the wording of spec section 4.1: the original bit length
as a full 64-bit little-endian integer, all eight bytes significant. -/
def le64 (n : Nat) : List Nat :=
  [n % 256, n / 256 % 256, n / 65536 % 256, n / 16777216 % 256,
   n / 4294967296 % 256, n / 1099511627776 % 256,
   n / 281474976710656 % 256, n / 72057594037927936 % 256]

/-- Claim C5 counterexample: for the 2 ^ 29-byte all-zero input the eight
trailing bytes of the padded message are all zero, not the 64-bit
little-endian encoding of the true bit length 2 ^ 32 — the source writes a
constant `0` for the high 32 bits of the length field. -/
theorem md5pad_bitlength_cex :
    (md5pad (List.replicate 536870912 0)).drop
        ((md5pad (List.replicate 536870912 0)).length - 8) ≠
      le64 (8 * (List.replicate 536870912 (0 : Nat)).length) := by
  have h1 : md5pad (List.replicate 536870912 0) =
      List.replicate 536870912 0 ++ 0x80 ::
        (List.replicate (((List.replicate 536870912 (0 : Nat)).length + 9 + 63) /
            64 * 64 - 8 - ((List.replicate 536870912 (0 : Nat)).length + 1)) 0 ++
          (le4 ((List.replicate 536870912 (0 : Nat)).length * 8 % 4294967296) ++
            [0, 0, 0, 0])) := rfl
  have hZ : ((List.replicate 536870912 (0 : Nat)).length + 9 + 63) / 64 * 64 -
      8 - ((List.replicate 536870912 (0 : Nat)).length + 1) = 55 := by
    rw [List.length_replicate]
  have hW : (List.replicate 536870912 (0 : Nat)).length * 8 % 4294967296 = 0 := by
    rw [List.length_replicate]
  rw [hZ, hW] at h1
  have h4 : le4 0 ++ ([0, 0, 0, 0] : List Nat) = List.replicate 8 0 := by decide
  rw [h4] at h1
  have hassoc : ∀ (a b c : List Nat) (x : Nat),
      a ++ x :: (b ++ c) = (a ++ x :: b) ++ c := by
    intro a b c x
    simp [List.append_assoc]
  rw [hassoc] at h1
  rw [h1]
  have hlen : ((List.replicate 536870912 (0 : Nat) ++ 0x80 :: List.replicate 55 0) ++
      List.replicate 8 0).length - 8 =
      (List.replicate 536870912 (0 : Nat) ++ 0x80 :: List.replicate 55 0).length := by
    rw [List.length_append, List.length_append, List.length_cons,
      List.length_replicate, List.length_replicate, List.length_replicate]
  rw [hlen, List.drop_left, List.length_replicate]
  decide

/-- Claim C5 amended: for every input shorter than 2147483576 bytes — on
longer inputs the int32 padded-length computation wraps and the
pre-processing throws a RangeError instead of producing a padded message —
the pre-processing does not throw, the padded buffer's length equals the
int32 computation `(msgLen + 9 + 63) & ~63`, and the buffer is the input
followed by a single 0x80 byte, then zero bytes until the length is
congruent to 56 modulo 64, then the original bit length reduced modulo
2 ^ 32 as four little-endian bytes followed by four zero bytes (the high
32 bits of the length field are written as zero, not the true high bits);
the padded length is a multiple of 64. -/
theorem md5pad_structure (bytes : List Nat) (hlen : bytes.length < 2147483576) :
    md5ThrowsAt bytes.length = false ∧
    md5PaddedLenBits bytes.length = (md5pad bytes).length ∧
    ∃ z, md5pad bytes = bytes ++ 0x80 :: (List.replicate z 0 ++
        (le4 (bytes.length * 8 % 4294967296) ++ [0, 0, 0, 0])) ∧
      (bytes.length + 1 + z) % 64 = 56 ∧
      (md5pad bytes).length % 64 = 0 := by
  have hl : (md5pad bytes).length = (bytes.length + 9 + 63) / 64 * 64 := by
    simp only [md5pad, le4, List.length_append, List.length_cons,
      List.length_replicate, List.length_nil]
    omega
  refine ⟨md5ThrowsAt_false_of_lt bytes.length hlen, ?_,
    (bytes.length + 9 + 63) / 64 * 64 - 8 - (bytes.length + 1), rfl, ?_, ?_⟩
  · unfold md5PaddedLenBits
    rw [hl]
    omega
  · omega
  · rw [hl]
    omega

/-- Witness for claim C5's amended statement at the three-byte input
"abc". -/
theorem md5pad_structure_witness :
    md5ThrowsAt ([97, 98, 99] : List Nat).length = false ∧
    md5PaddedLenBits ([97, 98, 99] : List Nat).length = (md5pad [97, 98, 99]).length ∧
    ∃ z, md5pad [97, 98, 99] = [97, 98, 99] ++ 0x80 :: (List.replicate z 0 ++
        (le4 (([97, 98, 99] : List Nat).length * 8 % 4294967296) ++ [0, 0, 0, 0])) ∧
      (([97, 98, 99] : List Nat).length + 1 + z) % 64 = 56 ∧
      (md5pad [97, 98, 99]).length % 64 = 0 :=
  md5pad_structure [97, 98, 99] (by decide)

/-- Claim C6: the padded password always has exactly 32 bytes; a password
of 32 or more bytes is truncated to its first 32 bytes; a shorter one is
extended with the leading bytes of the published padding constant; the
empty password yields the full constant, whose value is checked against the
published 32-byte sequence. -/
theorem padPassword_contract :
    (∀ p : List Nat, (padPassword p).length = 32) ∧
    (∀ p : List Nat, 32 ≤ p.length → padPassword p = p.take 32) ∧
    (∀ p : List Nat, p.length < 32 →
      padPassword p = p ++ PADDING.take (32 - p.length)) ∧
    padPassword [] = PADDING ∧
    PADDING = [0x28, 0xBF, 0x4E, 0x5E, 0x4E, 0x75, 0x8A, 0x41,
               0x64, 0x00, 0x4E, 0x56, 0xFF, 0xFA, 0x01, 0x08,
               0x2E, 0x2E, 0x00, 0xB6, 0xD0, 0x68, 0x3E, 0x80,
               0x2F, 0x0C, 0xA9, 0xFE, 0x64, 0x53, 0x69, 0x7A] := by
  refine ⟨padPassword_length, ?_, ?_, by decide, rfl⟩
  · intro p hp
    rw [padPassword, if_pos hp]
  · intro p hp
    rw [padPassword, if_neg (by omega)]

/-- Witness for claim C6 at a 40-byte password (truncation case) and a
3-byte password (padding case). -/
theorem padPassword_contract_witness :
    padPassword (List.replicate 40 7) = (List.replicate 40 7).take 32 ∧
    padPassword [1, 2, 3] =
      [1, 2, 3] ++ PADDING.take (32 - ([1, 2, 3] : List Nat).length) :=
  ⟨padPassword_contract.2.1 _ (by decide), padPassword_contract.2.2.1 _ (by decide)⟩

/-- Claim C8: every `process` call returns output of the length of its
input, and for every non-empty key and every byte buffer, processing with a
fresh RC4 instance and processing the result with a second independently
constructed instance of the same key returns the original data. -/
theorem rc4_roundtrip_contract :
    (∀ (st : RC4State) (data : List Nat),
      (rc4process st data).length = data.length) ∧
    (∀ key data : List Nat, key ≠ [] → (∀ b ∈ data, b < 256) →
      rc4process (rc4init key) (rc4process (rc4init key) data) = data) :=
  ⟨fun st data => rc4process_length st data,
   fun key data _ hd => rc4run_roundtrip data (rc4init key) (rc4init_s_lt key) hd⟩

/-- Witness for claim C8 at the key 01 02 03 and a four-byte buffer. -/
theorem rc4_roundtrip_contract_witness :
    rc4process (rc4init [1, 2, 3])
      (rc4process (rc4init [1, 2, 3]) [0, 255, 17, 204]) = [0, 255, 17, 204] :=
  rc4_roundtrip_contract.2 [1, 2, 3] [0, 255, 17, 204] (by decide) (by decide)

set_option maxRecDepth 100000 in
/-- Claim C9: an RC4 instance continues its keystream across `process`
calls — processing a concatenation equals processing the first part and
then, with the carried-over state, the second — and concretely, for the
key 01 and the one-byte input 00, a second `process` call on the same
instance yields output different from a fresh instance of the same key on
the same input. -/
theorem rc4_statefulness :
    (∀ (st : RC4State) (d1 d2 : List Nat),
      rc4process st (d1 ++ d2) =
        rc4process st d1 ++ rc4process (rc4run st d1).2 d2) ∧
    rc4process (rc4run (rc4init [1]) [0]).2 [0] ≠ rc4process (rc4init [1]) [0] := by
  constructor
  · intro st d1 d2
    simp [rc4process, rc4run_append]
  · decide

set_option maxRecDepth 100000 in
/-- Claim C10: constructing an RC4 instance from the empty key is total and
deterministic — each key schedule step forces the mixing cursor `j` to `0`
(the JavaScript `undefined` key byte makes the masked sum `NaN & 0xFF = 0`),
so the constructor yields the fixed table `[255, 0, 1, ..., 254]` with both
cursors `0` — and `process` on that instance still returns output of the
input's length. -/
theorem rc4_empty_key :
    (∀ (st : List Nat × Nat) (i : Nat), (rc4ksaStep [] st i).2 = 0) ∧
    (rc4init []).s = 255 :: List.range 255 ∧
    (rc4init []).i = 0 ∧ (rc4init []).j = 0 ∧
    (∀ data : List Nat, (rc4process (rc4init []) data).length = data.length) :=
  ⟨fun st i => rfl, by decide, rfl, rfl, fun data => rc4process_length _ _⟩

end PdfEncryptLite
